import Mathlib

/-!
Verification of the scene-timing and zoom-geometry core of the shorts_art
repository.

The geometry engine is embedded from `src/modules/image_processor.py`
(`_calculate_crop_box`, `_fit_to_aspect_ratio`) and `src/modules/utils.py`
(`clamp`); the timing distributor from `src/modules/audio_analyzer.py`
(`_calculate_scene_timings`, `distribute_scenes_to_timings`).

Python floats are modelled as rationals (`ℚ`); Python's `int(...)`
conversion (truncation toward zero) is `pyInt`; `numpy.linspace(0, stop,
num, dtype=int)` over natural-number index ranges is `linspaceInt`, using
exact rational interpolation truncated to an integer index.
-/

/-- Integer crop box `(left, top, right, bottom)` as returned by
`_calculate_crop_box`. -/
structure CropBox where
  left : ℤ
  top : ℤ
  right : ℤ
  bottom : ℤ
deriving DecidableEq, Repr

/-- Embeds `utils.clamp(value, min_value, max_value) = max(min_value, min(max_value, value))`. -/
def clamp (value min_value max_value : ℚ) : ℚ :=
  max min_value (min max_value value)

/-- Python's `int(q)`: truncation toward zero. -/
def pyInt (q : ℚ) : ℤ :=
  if q < 0 then -⌊-q⌋ else ⌊q⌋

/-- Python's `int(q)` for sizes that are used as natural numbers. -/
def pyNat (q : ℚ) : ℕ :=
  (pyInt q).toNat

/-- First boundary correction of `_calculate_crop_box` on one axis:
`if left < 0: right -= left; left = 0` (and the same for `top`/`bottom`). -/
def shiftLow (lo hi : ℚ) : ℚ × ℚ :=
  if lo < 0 then (0, hi - lo) else (lo, hi)

/-- Second boundary correction of `_calculate_crop_box` on one axis:
`if right > img_width: left -= (right - img_width); right = img_width`
(and the same for `bottom` against `img_height`). -/
def shiftHigh (bound lo hi : ℚ) : ℚ × ℚ :=
  if hi > bound then (lo - (hi - bound), bound) else (lo, hi)

/-- Both boundary corrections on one axis.  In the source the two `if`s for
the x axis are interleaved with the two for the y axis; the two axes touch
disjoint variables, so grouping per axis is the same computation. -/
def shiftIntoBounds (bound lo hi : ℚ) : ℚ × ℚ :=
  shiftHigh bound (shiftLow lo hi).1 (shiftLow lo hi).2

/-- Rational-valued crop box of `_calculate_crop_box` just before the final
`int(...)` conversions: zoom window, centering, boundary corrections and the
final clamping, returned as `((left, right), (top, bottom))`. -/
def cropBoxQ (img_width img_height : ℕ) (x y zoom : ℚ) :
    (ℚ × ℚ) × (ℚ × ℚ) :=
  let crop_width : ℚ := img_width / zoom
  let crop_height : ℚ := img_height / zoom
  let center_x : ℚ := img_width * x
  let center_y : ℚ := img_height * y
  let xs := shiftIntoBounds img_width (center_x - crop_width / 2) (center_x + crop_width / 2)
  let ys := shiftIntoBounds img_height (center_y - crop_height / 2) (center_y + crop_height / 2)
  ((clamp xs.1 0 img_width, clamp xs.2 0 img_width),
   (clamp ys.1 0 img_height, clamp ys.2 0 img_height))

/-- Embeds `ImageProcessor._calculate_crop_box(img_width, img_height, x, y, zoom)`. -/
def calculateCropBox (img_width img_height : ℕ) (x y zoom : ℚ) : CropBox :=
  ⟨pyInt (cropBoxQ img_width img_height x y zoom).1.1,
   pyInt (cropBoxQ img_width img_height x y zoom).2.1,
   pyInt (cropBoxQ img_width img_height x y zoom).1.2,
   pyInt (cropBoxQ img_width img_height x y zoom).2.2⟩

/-- Size transformation of the cropping step of
`ImageProcessor._fit_to_aspect_ratio`: the symmetric trim that brings
`(cropped_width, cropped_height)` to the target ratio
`video_width / video_height`.  The final `img.resize((video_width,
video_height))` of the source is the constant size `(video_width,
video_height)` and is treated separately. -/
def fitTrim (video_width video_height cropped_width cropped_height : ℕ) :
    ℕ × ℕ :=
  let target_ratio : ℚ := (video_width : ℚ) / (video_height : ℚ)
  let current_ratio : ℚ := (cropped_width : ℚ) / (cropped_height : ℚ)
  if current_ratio > target_ratio then
    (pyNat ((cropped_height : ℚ) * target_ratio), cropped_height)
  else
    (cropped_width, pyNat ((cropped_width : ℚ) / target_ratio))

-- basic facts about the helpers

theorem clamp_eq_self {v lo hi : ℚ} (h1 : lo ≤ v) (h2 : v ≤ hi) :
    clamp v lo hi = v := by
  unfold clamp
  rw [min_eq_right h2, max_eq_right h1]

theorem pyInt_eq_floor {q : ℚ} (h : 0 ≤ q) : pyInt q = ⌊q⌋ := by
  unfold pyInt
  rw [if_neg (not_lt.2 h)]

theorem shiftLow_fst_nonneg (lo hi : ℚ) : 0 ≤ (shiftLow lo hi).1 := by
  unfold shiftLow
  split_ifs with h
  · simp
  · simpa using le_of_not_lt h

theorem shiftLow_sub (lo hi : ℚ) :
    (shiftLow lo hi).2 - (shiftLow lo hi).1 = hi - lo := by
  unfold shiftLow
  split_ifs <;> ring

theorem shiftHigh_snd_le (bound lo hi : ℚ) :
    (shiftHigh bound lo hi).2 ≤ bound := by
  unfold shiftHigh
  split_ifs with hgt
  · simp
  · simpa using le_of_not_lt hgt

theorem shiftHigh_sub (bound lo hi : ℚ) :
    (shiftHigh bound lo hi).2 - (shiftHigh bound lo hi).1 = hi - lo := by
  unfold shiftHigh
  split_ifs <;> ring

theorem shiftHigh_fst_nonneg (bound lo hi : ℚ) (h1 : 0 ≤ lo)
    (h2 : hi - lo ≤ bound) : 0 ≤ (shiftHigh bound lo hi).1 := by
  unfold shiftHigh
  split_ifs with hgt
  · simp only
    linarith
  · simpa using h1

/-- After the two boundary corrections the interval has unchanged length,
a non-negative lower end, and an upper end within the bound, provided the
interval is no longer than the bound. -/
theorem shiftIntoBounds_spec (bound lo hi : ℚ)
    (hb : hi - lo ≤ bound) :
    0 ≤ (shiftIntoBounds bound lo hi).1 ∧
    (shiftIntoBounds bound lo hi).2 - (shiftIntoBounds bound lo hi).1 = hi - lo ∧
    (shiftIntoBounds bound lo hi).2 ≤ bound := by
  unfold shiftIntoBounds
  have h1 := shiftLow_fst_nonneg lo hi
  have h2 := shiftLow_sub lo hi
  refine ⟨?_, ?_, ?_⟩
  · exact shiftHigh_fst_nonneg _ _ _ h1 (by rw [h2]; exact hb)
  · rw [shiftHigh_sub, h2]
  · exact shiftHigh_snd_le _ _ _

/-- Full characterisation of the rational crop box for `zoom ≥ 1`:
each axis carries an interval of the exact length `side / zoom`, starting
at a non-negative coordinate and ending within the image. -/
theorem cropBoxQ_spec (w h : ℕ) (x y zoom : ℚ) (hz : 1 ≤ zoom) :
    0 ≤ (cropBoxQ w h x y zoom).1.1 ∧
    (cropBoxQ w h x y zoom).1.2 - (cropBoxQ w h x y zoom).1.1 = (w : ℚ) / zoom ∧
    (cropBoxQ w h x y zoom).1.2 ≤ (w : ℚ) ∧
    0 ≤ (cropBoxQ w h x y zoom).2.1 ∧
    (cropBoxQ w h x y zoom).2.2 - (cropBoxQ w h x y zoom).2.1 = (h : ℚ) / zoom ∧
    (cropBoxQ w h x y zoom).2.2 ≤ (h : ℚ) := by
  have hzpos : (0 : ℚ) < zoom := lt_of_lt_of_le one_pos hz
  have hwq : (0 : ℚ) ≤ (w : ℚ) := Nat.cast_nonneg w
  have hhq : (0 : ℚ) ≤ (h : ℚ) := Nat.cast_nonneg h
  have hcw0 : (0 : ℚ) ≤ (w : ℚ) / zoom := div_nonneg hwq (le_of_lt hzpos)
  have hch0 : (0 : ℚ) ≤ (h : ℚ) / zoom := div_nonneg hhq (le_of_lt hzpos)
  have hcww : (w : ℚ) / zoom ≤ (w : ℚ) := div_le_self hwq hz
  have hchh : (h : ℚ) / zoom ≤ (h : ℚ) := div_le_self hhq hz
  have hxsub : ((w : ℚ) * x + (w : ℚ) / zoom / 2) - ((w : ℚ) * x - (w : ℚ) / zoom / 2)
      = (w : ℚ) / zoom := by ring
  have hysub : ((h : ℚ) * y + (h : ℚ) / zoom / 2) - ((h : ℚ) * y - (h : ℚ) / zoom / 2)
      = (h : ℚ) / zoom := by ring
  have hx := shiftIntoBounds_spec (w : ℚ)
    ((w : ℚ) * x - (w : ℚ) / zoom / 2) ((w : ℚ) * x + (w : ℚ) / zoom / 2)
    (by rw [hxsub]; exact hcww)
  have hy := shiftIntoBounds_spec (h : ℚ)
    ((h : ℚ) * y - (h : ℚ) / zoom / 2) ((h : ℚ) * y + (h : ℚ) / zoom / 2)
    (by rw [hysub]; exact hchh)
  obtain ⟨hx1, hx2, hx3⟩ := hx
  obtain ⟨hy1, hy2, hy3⟩ := hy
  rw [hxsub] at hx2
  rw [hysub] at hy2
  unfold cropBoxQ
  simp only
  have hxlo_le : (shiftIntoBounds (w : ℚ) ((w : ℚ) * x - (w : ℚ) / zoom / 2)
      ((w : ℚ) * x + (w : ℚ) / zoom / 2)).1 ≤ (w : ℚ) := by linarith
  have hxhi_nonneg : 0 ≤ (shiftIntoBounds (w : ℚ) ((w : ℚ) * x - (w : ℚ) / zoom / 2)
      ((w : ℚ) * x + (w : ℚ) / zoom / 2)).2 := by linarith
  have hylo_le : (shiftIntoBounds (h : ℚ) ((h : ℚ) * y - (h : ℚ) / zoom / 2)
      ((h : ℚ) * y + (h : ℚ) / zoom / 2)).1 ≤ (h : ℚ) := by linarith
  have hyhi_nonneg : 0 ≤ (shiftIntoBounds (h : ℚ) ((h : ℚ) * y - (h : ℚ) / zoom / 2)
      ((h : ℚ) * y + (h : ℚ) / zoom / 2)).2 := by linarith
  rw [clamp_eq_self hx1 hxlo_le, clamp_eq_self hxhi_nonneg hx3,
      clamp_eq_self hy1 hylo_le, clamp_eq_self hyhi_nonneg hy3]
  exact ⟨hx1, hx2, hx3, hy1, hy2, hy3⟩

/-- Conversion of one corrected axis interval to integer pixel bounds:
when the interval has length `c ≥ 1`, the integer bounds stay inside
`[0, b]`, are strictly ordered, and the integer length is within one pixel
of `c`. -/
theorem pyInt_axis {lo hi c : ℚ} {b : ℕ} (h1 : 0 ≤ lo) (h2 : hi - lo = c)
    (h3 : hi ≤ (b : ℚ)) (hc1 : 1 ≤ c) :
    0 ≤ pyInt lo ∧ pyInt lo < pyInt hi ∧ pyInt hi ≤ (b : ℤ) ∧
    |((pyInt hi - pyInt lo : ℤ) : ℚ) - c| < 1 := by
  have hhi0 : 0 ≤ hi := by linarith
  rw [pyInt_eq_floor h1, pyInt_eq_floor hhi0]
  have f1 : (⌊lo⌋ : ℚ) ≤ lo := Int.floor_le lo
  have f2 : lo < ⌊lo⌋ + 1 := Int.lt_floor_add_one lo
  have f3 : (⌊hi⌋ : ℚ) ≤ hi := Int.floor_le hi
  have f4 : hi < ⌊hi⌋ + 1 := Int.lt_floor_add_one hi
  have hlt : ⌊lo⌋ + 1 ≤ ⌊hi⌋ := by
    rw [Int.le_floor]
    push_cast
    linarith
  refine ⟨Int.floor_nonneg.2 h1, by omega, ?_, ?_⟩
  · have := Int.floor_mono h3
    rwa [Int.floor_natCast] at this
  · rw [abs_lt]
    constructor <;> push_cast <;> linarith

/-- Claim C1 (amended): for positive image dimensions, a focus point with
`x, y ∈ [0,1]` and `1 ≤ zoom ≤ min(width, height)` (so that the requested
crop spans at least one pixel in each direction), `_calculate_crop_box`
returns a box with `0 ≤ left < right ≤ width` and `0 ≤ top < bottom ≤
height`, each side length within one pixel of the exact extent
`width/zoom` resp. `height/zoom`.  (The original claim, quantifying over
all `zoom ≥ 1`, fails: a zoom larger than a side collapses that side to
zero pixels, see the counterexample.) -/
theorem c1_crop_box_invariant (w h : ℕ) (x y zoom : ℚ)
    (hw : 0 < w) (hh : 0 < h) (hz : 1 ≤ zoom)
    (hx0 : 0 ≤ x) (hx1 : x ≤ 1) (hy0 : 0 ≤ y) (hy1 : y ≤ 1)
    (hzw : zoom ≤ (w : ℚ)) (hzh : zoom ≤ (h : ℚ)) :
    0 ≤ (calculateCropBox w h x y zoom).left ∧
    (calculateCropBox w h x y zoom).left < (calculateCropBox w h x y zoom).right ∧
    (calculateCropBox w h x y zoom).right ≤ (w : ℤ) ∧
    0 ≤ (calculateCropBox w h x y zoom).top ∧
    (calculateCropBox w h x y zoom).top < (calculateCropBox w h x y zoom).bottom ∧
    (calculateCropBox w h x y zoom).bottom ≤ (h : ℤ) ∧
    |(((calculateCropBox w h x y zoom).right -
        (calculateCropBox w h x y zoom).left : ℤ) : ℚ) - (w : ℚ) / zoom| < 1 ∧
    |(((calculateCropBox w h x y zoom).bottom -
        (calculateCropBox w h x y zoom).top : ℤ) : ℚ) - (h : ℚ) / zoom| < 1 := by
  have hzpos : (0 : ℚ) < zoom := lt_of_lt_of_le one_pos hz
  obtain ⟨ha1, ha2, ha3, hb1, hb2, hb3⟩ := cropBoxQ_spec w h x y zoom hz
  have hcw1 : 1 ≤ (w : ℚ) / zoom := (one_le_div hzpos).2 hzw
  have hch1 : 1 ≤ (h : ℚ) / zoom := (one_le_div hzpos).2 hzh
  obtain ⟨p1, p2, p3, p4⟩ := pyInt_axis ha1 ha2 ha3 hcw1
  obtain ⟨q1, q2, q3, q4⟩ := pyInt_axis hb1 hb2 hb3 hch1
  exact ⟨p1, p2, p3, q1, q2, q3, p4, q4⟩

/-- Claim C1 witness at a concrete focus point. -/
theorem c1_crop_box_invariant_witness :
    0 ≤ (calculateCropBox 1000 800 (1/2) (1/2) 2).left ∧
    (calculateCropBox 1000 800 (1/2) (1/2) 2).left <
      (calculateCropBox 1000 800 (1/2) (1/2) 2).right ∧
    (calculateCropBox 1000 800 (1/2) (1/2) 2).right ≤ (1000 : ℤ) ∧
    0 ≤ (calculateCropBox 1000 800 (1/2) (1/2) 2).top ∧
    (calculateCropBox 1000 800 (1/2) (1/2) 2).top <
      (calculateCropBox 1000 800 (1/2) (1/2) 2).bottom ∧
    (calculateCropBox 1000 800 (1/2) (1/2) 2).bottom ≤ (800 : ℤ) ∧
    |(((calculateCropBox 1000 800 (1/2) (1/2) 2).right -
        (calculateCropBox 1000 800 (1/2) (1/2) 2).left : ℤ) : ℚ) -
        (1000 : ℚ) / 2| < 1 ∧
    |(((calculateCropBox 1000 800 (1/2) (1/2) 2).bottom -
        (calculateCropBox 1000 800 (1/2) (1/2) 2).top : ℤ) : ℚ) -
        (800 : ℚ) / 2| < 1 := by
  have := c1_crop_box_invariant 1000 800 (1/2) (1/2) 2
    (by norm_num) (by norm_num) (by norm_num) (by norm_num) (by norm_num)
    (by norm_num) (by norm_num) (by norm_num) (by norm_num)
  simpa using this

/-- Claim C1 counterexample to the original statement: a 2×2 image with
focus `(0.25, 0.25)` and `zoom = 4` (all preconditions of the claim hold)
yields the box `(0, 0, 0, 0)`: `left < right` fails and the area is 0, so
the box-area-positive invariant does not hold for every `zoom ≥ 1`. -/
theorem c1_counterexample :
    calculateCropBox 2 2 (1/4) (1/4) 4 = ⟨0, 0, 0, 0⟩ ∧
    ¬((calculateCropBox 2 2 (1/4) (1/4) 4).left <
        (calculateCropBox 2 2 (1/4) (1/4) 4).right) ∧
    (0 : ℕ) < 2 ∧ (1 : ℚ) ≤ 4 ∧ (0 : ℚ) ≤ 1/4 ∧ (1/4 : ℚ) ≤ 1 := by
  have hbox : calculateCropBox 2 2 (1/4) (1/4) 4 = ⟨0, 0, 0, 0⟩ := by
    norm_num [calculateCropBox, cropBoxQ, shiftIntoBounds, shiftLow, shiftHigh,
      clamp, pyInt]
  refine ⟨hbox, ?_, by norm_num, by norm_num, by norm_num, by norm_num⟩
  rw [hbox]
  decide

/-- Claim C2: translate-before-clamp.  Whenever the requested crop width
`w / zoom` is a whole number `n` of pixels, the returned box has width
exactly `n` regardless of where the focus point sits: if an edge of the
centred box runs over an image bound, the whole box is translated back
inside, never shrunk (shrinking happens only through the final clamp,
which the translation makes vacuous). -/
theorem c2_translate_before_clamp (w h n : ℕ) (x y zoom : ℚ) (hz : 1 ≤ zoom)
    (hn : (w : ℚ) = zoom * n) :
    (calculateCropBox w h x y zoom).right -
      (calculateCropBox w h x y zoom).left = (n : ℤ) := by
  obtain ⟨ha1, ha2, ha3, _, _, _⟩ := cropBoxQ_spec w h x y zoom hz
  have hzpos : (0 : ℚ) < zoom := lt_of_lt_of_le one_pos hz
  have hcw : (w : ℚ) / zoom = (n : ℚ) := by
    rw [hn]
    field_simp
  rw [hcw] at ha2
  have hhi : (cropBoxQ w h x y zoom).1.2 =
      (cropBoxQ w h x y zoom).1.1 + (n : ℚ) := by linarith
  have hhi0 : 0 ≤ (cropBoxQ w h x y zoom).1.2 := by
    rw [hhi]
    have : (0 : ℚ) ≤ (n : ℚ) := Nat.cast_nonneg n
    linarith
  show pyInt (cropBoxQ w h x y zoom).1.2 - pyInt (cropBoxQ w h x y zoom).1.1 = (n : ℤ)
  rw [pyInt_eq_floor ha1, pyInt_eq_floor hhi0, hhi, Int.floor_add_nat]
  ring

/-- Claim C2 witness: the instance from the specification, `x = 0.95`,
`zoom = 2.0` on a 1000-px-wide image.  The centred box `(700, 1200)` runs
over the right edge; the result is translated to `(500, 1000)`: full width
500, not shrunk. -/
theorem c2_translate_before_clamp_witness :
    calculateCropBox 1000 800 (19/20) (1/2) 2 = ⟨500, 200, 1000, 600⟩ ∧
    (calculateCropBox 1000 800 (19/20) (1/2) 2).right -
      (calculateCropBox 1000 800 (19/20) (1/2) 2).left = (500 : ℤ) := by
  constructor
  · norm_num [calculateCropBox, cropBoxQ, shiftIntoBounds, shiftLow, shiftHigh,
      clamp, pyInt]
  · exact c2_translate_before_clamp 1000 800 500 (19/20) (1/2) 2
      (by norm_num) (by norm_num)

/-- Claim C5 counterexample: `_calculate_crop_box` performs no input
validation at all.  With `zoom = 1/2 < 1` (the claim requires error kind
`InvalidFocus` and no ordinary box) it returns the ordinary, in-bounds,
positive-area box `(0, 0, 1000, 1000)`. -/
theorem c5_counterexample :
    calculateCropBox 1000 1000 (1/2) (1/2) (1/2) = ⟨0, 0, 1000, 1000⟩ ∧
    ((1/2 : ℚ) < 1) ∧
    0 ≤ (calculateCropBox 1000 1000 (1/2) (1/2) (1/2)).left ∧
    (calculateCropBox 1000 1000 (1/2) (1/2) (1/2)).left <
      (calculateCropBox 1000 1000 (1/2) (1/2) (1/2)).right ∧
    (calculateCropBox 1000 1000 (1/2) (1/2) (1/2)).right ≤ (1000 : ℤ) := by
  have hbox : calculateCropBox 1000 1000 (1/2) (1/2) (1/2) = ⟨0, 0, 1000, 1000⟩ := by
    norm_num [calculateCropBox, cropBoxQ, shiftIntoBounds, shiftLow, shiftHigh,
      clamp, pyInt]
  refine ⟨hbox, by norm_num, ?_, ?_, ?_⟩ <;> rw [hbox] <;> decide

/-- Claim C5 (amended): `_calculate_crop_box` signals no errors of any
kind.  It is a total computation returning a plain box: for `zoom < 1` it
returns an ordinary clamped box, for zero image dimensions it returns the
zero box, and when the zoom is so large that the crop rounds to zero
pixels it silently returns a zero-area box instead of signalling
`DegenerateCrop`. -/
theorem c5_no_validation :
    calculateCropBox 1000 1000 (1/2) (1/2) (1/2) = ⟨0, 0, 1000, 1000⟩ ∧
    calculateCropBox 0 0 (1/2) (1/2) 2 = ⟨0, 0, 0, 0⟩ ∧
    calculateCropBox 2 2 (1/4) (1/4) 4 = ⟨0, 0, 0, 0⟩ := by
  refine ⟨?_, ?_, ?_⟩ <;>
    norm_num [calculateCropBox, cropBoxQ, shiftIntoBounds, shiftLow, shiftHigh,
      clamp, pyInt]

/-- Integer truncation of a non-negative rational stays within one unit
below it. -/
theorem pyNat_spec {q : ℚ} (h : 0 ≤ q) :
    (pyNat q : ℚ) ≤ q ∧ q - 1 < (pyNat q : ℚ) := by
  have h0 : 0 ≤ ⌊q⌋ := Int.floor_nonneg.2 h
  have hcast : ((pyNat q : ℕ) : ℚ) = ((⌊q⌋ : ℤ) : ℚ) := by
    unfold pyNat
    rw [pyInt_eq_floor h]
    exact_mod_cast Int.toNat_of_nonneg h0
  have f1 : ((⌊q⌋ : ℤ) : ℚ) ≤ q := Int.floor_le q
  have f2 : q < ((⌊q⌋ : ℤ) : ℚ) + 1 := Int.lt_floor_add_one q
  rw [hcast]
  exact ⟨f1, by linarith⟩

theorem pyNat_natCast (n : ℕ) : pyNat (n : ℚ) = n := by
  unfold pyNat
  rw [pyInt_eq_floor (Nat.cast_nonneg n), Int.floor_natCast]
  exact Int.toNat_natCast n

/-- Claim C9 (amended): the trimming step of `_fit_to_aspect_ratio` never
enlarges a dimension (it weakly shrinks exactly one of the two and leaves
the other unchanged), the trimmed dimension lands within one pixel of the
exact value that realises the target ratio, and the trim is the identity
on boxes already at the exact target ratio — hence the full operation,
which ends by resizing to exactly `(video_width, video_height)`, is
idempotent.  The trim alone, as described in the specification, is not
idempotent (see the counterexample). -/
theorem c9_fit_aspect (vw vh cw ch : ℕ)
    (hvw : 0 < vw) (hvh : 0 < vh) (hcw : 0 < cw) (hch : 0 < ch) :
    (fitTrim vw vh cw ch).1 ≤ cw ∧
    (fitTrim vw vh cw ch).2 ≤ ch ∧
    ((fitTrim vw vh cw ch).1 = cw ∨ (fitTrim vw vh cw ch).2 = ch) ∧
    ((cw : ℚ) / ch > (vw : ℚ) / vh →
      |((fitTrim vw vh cw ch).1 : ℚ) - (ch : ℚ) * ((vw : ℚ) / vh)| < 1) ∧
    (¬((cw : ℚ) / ch > (vw : ℚ) / vh) →
      |((fitTrim vw vh cw ch).2 : ℚ) - (cw : ℚ) / ((vw : ℚ) / vh)| < 1) ∧
    ((cw : ℚ) / ch = (vw : ℚ) / vh → fitTrim vw vh cw ch = (cw, ch)) := by
  have hvwq : (0 : ℚ) < (vw : ℚ) := by exact_mod_cast hvw
  have hvhq : (0 : ℚ) < (vh : ℚ) := by exact_mod_cast hvh
  have hcwq : (0 : ℚ) < (cw : ℚ) := by exact_mod_cast hcw
  have hchq : (0 : ℚ) < (ch : ℚ) := by exact_mod_cast hch
  have hr : (0 : ℚ) < (vw : ℚ) / vh := div_pos hvwq hvhq
  by_cases hgt : (cw : ℚ) / ch > (vw : ℚ) / vh
  · have hres : fitTrim vw vh cw ch =
        (pyNat ((ch : ℚ) * ((vw : ℚ) / vh)), ch) := by
      unfold fitTrim
      rw [if_pos hgt]
    have hq0 : (0 : ℚ) ≤ (ch : ℚ) * ((vw : ℚ) / vh) :=
      le_of_lt (mul_pos hchq hr)
    obtain ⟨hp1, hp2⟩ := pyNat_spec hq0
    have hlt : (ch : ℚ) * ((vw : ℚ) / vh) < (cw : ℚ) := by
      rw [mul_div_assoc', div_lt_iff hvhq]
      have := (div_lt_div_iff hvhq hchq).1 hgt
      linarith [mul_comm (ch : ℚ) (vw : ℚ)]
    have hle : (pyNat ((ch : ℚ) * ((vw : ℚ) / vh)) : ℕ) ≤ cw := by
      have : ((pyNat ((ch : ℚ) * ((vw : ℚ) / vh)) : ℕ) : ℚ) < (cw : ℚ) := by linarith
      exact_mod_cast le_of_lt this
    rw [hres]
    refine ⟨hle, le_rfl, Or.inr rfl, ?_, ?_, ?_⟩
    · intro _
      rw [abs_lt]
      constructor <;> simp only <;> linarith
    · intro hcon
      exact absurd hgt hcon
    · intro heq
      rw [heq] at hgt
      exact absurd hgt (lt_irrefl _)
  · have hres : fitTrim vw vh cw ch =
        (cw, pyNat ((cw : ℚ) / ((vw : ℚ) / vh))) := by
      unfold fitTrim
      rw [if_neg hgt]
    have hq0 : (0 : ℚ) ≤ (cw : ℚ) / ((vw : ℚ) / vh) :=
      le_of_lt (div_pos hcwq hr)
    obtain ⟨hp1, hp2⟩ := pyNat_spec hq0
    have hle' : (cw : ℚ) / ((vw : ℚ) / vh) ≤ (ch : ℚ) := by
      have hle0 : (cw : ℚ) / ch ≤ (vw : ℚ) / vh := le_of_not_lt hgt
      rw [div_div_eq_mul_div, div_le_iff hvwq]
      have := (div_le_div_iff hchq hvhq).1 hle0
      linarith [mul_comm (ch : ℚ) (vw : ℚ)]
    have hle : (pyNat ((cw : ℚ) / ((vw : ℚ) / vh)) : ℕ) ≤ ch := by
      have : ((pyNat ((cw : ℚ) / ((vw : ℚ) / vh)) : ℕ) : ℚ) ≤ (ch : ℚ) := by linarith
      exact_mod_cast this
    rw [hres]
    refine ⟨le_rfl, hle, Or.inl rfl, ?_, ?_, ?_⟩
    · intro hcon
      exact absurd hcon hgt
    · intro _
      rw [abs_lt]
      constructor <;> simp only <;> linarith
    · intro heq
      have hdiv : (cw : ℚ) / ((vw : ℚ) / vh) = (ch : ℚ) := by
        rw [← heq]
        field_simp
      rw [hdiv]
      rw [pyNat_natCast]

/-- Claim C9 counterexample to idempotence of the trim: at target ratio
9:16 a 100×100 box trims to 56×100, but trimming 56×100 again gives
56×99, so applying the aspect-ratio trim twice differs from applying it
once. -/
theorem c9_counterexample :
    fitTrim 9 16 100 100 = (56, 100) ∧
    fitTrim 9 16 56 100 = (56, 99) ∧
    fitTrim 9 16 (fitTrim 9 16 100 100).1 (fitTrim 9 16 100 100).2 ≠
      fitTrim 9 16 100 100 := by
  have h1 : fitTrim 9 16 100 100 = (56, 100) := by
    norm_num [fitTrim, pyNat, pyInt]
    decide
  have h2 : fitTrim 9 16 56 100 = (56, 99) := by
    norm_num [fitTrim, pyNat, pyInt]
    decide
  refine ⟨h1, h2, ?_⟩
  rw [h1]
  simp only
  rw [h2]
  decide

/-- Claim C9 witness at the 9:16 target on a 100×100 box. -/
theorem c9_fit_aspect_witness :
    (fitTrim 9 16 100 100).1 ≤ 100 ∧
    (fitTrim 9 16 100 100).2 ≤ 100 ∧
    ((fitTrim 9 16 100 100).1 = 100 ∨ (fitTrim 9 16 100 100).2 = 100) ∧
    ((100 : ℚ) / 100 > (9 : ℚ) / 16 →
      |((fitTrim 9 16 100 100).1 : ℚ) - (100 : ℚ) * ((9 : ℚ) / 16)| < 1) ∧
    (¬((100 : ℚ) / 100 > (9 : ℚ) / 16) →
      |((fitTrim 9 16 100 100).2 : ℚ) - (100 : ℚ) / ((9 : ℚ) / 16)| < 1) ∧
    ((100 : ℚ) / 100 = (9 : ℚ) / 16 → fitTrim 9 16 100 100 = (100, 100)) := by
  have := c9_fit_aspect 9 16 100 100 (by norm_num) (by norm_num) (by norm_num)
    (by norm_num)
  simpa using this

/-! Timing distributor, embedded from `src/modules/audio_analyzer.py`. -/

/-- Greedy minimum-interval filter of `_calculate_scene_timings`: walk the
sorted timestamps, keep one only when it is at least `min_interval` after
the last kept one; `last_time` starts at `-min_interval`. -/
def greedyFilter (min_interval : ℚ) : ℚ → List ℚ → List ℚ
  | _, [] => []
  | last_time, t :: ts =>
    if t - last_time ≥ min_interval then t :: greedyFilter min_interval t ts
    else greedyFilter min_interval last_time ts

/-- Embeds `sorted(set(beats + onsets))` of `_calculate_scene_timings`. -/
def all_timings (beats onsets : List ℚ) : List ℚ :=
  ((beats ++ onsets).dedup).insertionSort (· ≤ ·)

/-- The `filtered_timings` list of `_calculate_scene_timings` before the
optional prepend of `0.0`. -/
def filtered_timings (beats onsets : List ℚ) (min_interval : ℚ) : List ℚ :=
  greedyFilter min_interval (-min_interval) (all_timings beats onsets)

/-- Embeds `AudioAnalyzer._calculate_scene_timings(beats, onsets, duration)`; the
`duration` argument is accepted and ignored, exactly as in the source;
`min_interval` is the configuration value `min_scene_interval`. -/
def calc_scene_timings (beats onsets : List ℚ) (duration min_interval : ℚ) :
    List ℚ :=
  if filtered_timings beats onsets min_interval = [] ∨
      (filtered_timings beats onsets min_interval).headD 0 > 1/10 then
    0 :: filtered_timings beats onsets min_interval
  else
    filtered_timings beats onsets min_interval

/-- Timing source chosen by `distribute_scenes_to_timings` from the
strategy name: `beats`, `onsets`, or (for `auto` and anything else) the
merged scene timings. -/
def chooseTimings (strategy : String) (scene_timings beats onsets : List ℚ) :
    List ℚ :=
  if strategy = "beats" then beats
  else if strategy = "onsets" then onsets
  else scene_timings

/-- The even split `[(i, i * scene_duration, scene_duration)]` used by the
`evenly` strategy and by the too-few-timings fallback (the identical list
comprehension appears twice in the source). -/
def evenlyAlloc (num_scenes : ℕ) (duration : ℚ) : List (ℕ × ℚ × ℚ) :=
  (List.range num_scenes).map
    (fun i => (i, (i : ℚ) * (duration / num_scenes), duration / num_scenes))

/-- Embeds `numpy.linspace(0, stop, num, dtype=int)`: exact linear interpolation
over the index range truncated to integers (`astype(int)` truncates toward
zero; all values here are non-negative, and natural-number division is
that truncation). -/
def linspaceInt (stop num : ℕ) : List ℕ :=
  if num = 1 then [0]
  else (List.range num).map (fun i => i * stop / (num - 1))

/-- Embeds `selected_timings = [timings[i] for i in selected_indices]`. -/
def selectedTimings (timings : List ℚ) (num_scenes : ℕ) : List ℚ :=
  (linspaceInt (timings.length - 1) num_scenes).map (fun j => timings.getD j 0)

/-- The main allocation loop of `distribute_scenes_to_timings`: scene `i`
starts at its selected timestamp and ends at the next selected timestamp,
the last scene ending at `duration`. -/
def mainAlloc (timings : List ℚ) (num_scenes : ℕ) (duration : ℚ) :
    List (ℕ × ℚ × ℚ) :=
  (List.range num_scenes).map (fun i =>
    (i, (selectedTimings timings num_scenes).getD i 0,
      (if i < num_scenes - 1 then (selectedTimings timings num_scenes).getD (i + 1) 0
       else duration) - (selectedTimings timings num_scenes).getD i 0))

/-- Embeds `AudioAnalyzer.distribute_scenes_to_timings(num_scenes, audio_analysis,
strategy)`, with the fields `scene_timings`, `beats`, `onsets`, `duration`
of `audio_analysis` passed explicitly. -/
def distribute_scenes_to_timings (num_scenes : ℕ)
    (scene_timings beats onsets : List ℚ) (duration : ℚ) (strategy : String) :
    List (ℕ × ℚ × ℚ) :=
  if strategy = "evenly" then evenlyAlloc num_scenes duration
  else if (chooseTimings strategy scene_timings beats onsets).length < num_scenes then
    evenlyAlloc num_scenes duration
  else mainAlloc (chooseTimings strategy scene_timings beats onsets) num_scenes duration

/-- Sum of the allocated durations. -/
def sumDur (l : List (ℕ × ℚ × ℚ)) : ℚ :=
  (l.map (fun a => a.2.2)).sum

/-- Start time of the first allocation (0 for the empty list). -/
def firstStart (l : List (ℕ × ℚ × ℚ)) : ℚ :=
  (l.headD (0, 0, 0)).2.1

/-- Index selection as the specification words describe it (`Modelled from
the spec`, for comparison with the implemented `linspaceInt`): linear
interpolation over the inclusive index range, rounded to the NEAREST
index and clamped to `[0, stop]`. -/
def specSelectIndices (stop num : ℕ) : List ℕ :=
  if num = 1 then [0]
  else (List.range num).map
    (fun i => min stop (⌊(i : ℚ) * stop / ((num : ℚ) - 1) + 1/2⌋.toNat))

theorem sum_map_range_telescope (F : ℕ → ℚ) (n : ℕ) :
    ((List.range n).map (fun i => F (i + 1) - F i)).sum = F n - F 0 := by
  induction n with
  | zero => simp
  | succ n ih =>
    rw [List.range_succ, List.map_append, List.sum_append, ih]
    simp only [List.map_cons, List.map_nil, List.sum_cons, List.sum_nil]
    ring

theorem sumDur_evenlyAlloc (num : ℕ) (d : ℚ) (h : 0 < num) :
    sumDur (evenlyAlloc num d) = d := by
  unfold sumDur evenlyAlloc
  rw [List.map_map]
  have h1 : ((fun a : ℕ × ℚ × ℚ => a.2.2) ∘ fun i : ℕ =>
      ((i, (i : ℚ) * (d / num), d / num) : ℕ × ℚ × ℚ)) =
      fun i : ℕ => d / (num : ℚ) := rfl
  rw [h1, List.map_const', List.sum_replicate, List.length_range, nsmul_eq_mul]
  have hnum : (num : ℚ) ≠ 0 := Nat.cast_ne_zero.2 (Nat.pos_iff_ne_zero.1 h)
  field_simp

theorem firstStart_evenlyAlloc (num : ℕ) (d : ℚ) (h : 0 < num) :
    firstStart (evenlyAlloc num d) = 0 := by
  unfold firstStart evenlyAlloc
  obtain ⟨m, rfl⟩ := Nat.exists_eq_succ_of_ne_zero (Nat.pos_iff_ne_zero.1 h)
  rw [List.range_succ_eq_map]
  simp

theorem linspaceInt_length (stop num : ℕ) : (linspaceInt stop num).length = num := by
  unfold linspaceInt
  split_ifs with h
  · simp [h]
  · simp

theorem linspaceInt_getD (stop num i : ℕ) (h2 : 2 ≤ num) (hi : i < num) :
    (linspaceInt stop num).getD i 0 = i * stop / (num - 1) := by
  unfold linspaceInt
  rw [if_neg (by omega)]
  rw [List.getD_eq_getElem _ _ (by simpa using hi)]
  simp

theorem linspaceInt_getD_zero (stop num : ℕ) (h : 0 < num) :
    (linspaceInt stop num).getD 0 0 = 0 := by
  by_cases h1 : num = 1
  · subst h1
    rfl
  · rw [linspaceInt_getD stop num 0 (by omega) h]
    simp

theorem linspaceInt_getD_le_stop (stop num i : ℕ) (hi : i < num) :
    (linspaceInt stop num).getD i 0 ≤ stop := by
  by_cases h1 : num = 1
  · subst h1
    have : i = 0 := by omega
    subst this
    simp [linspaceInt]
  · rw [linspaceInt_getD stop num i (by omega) hi]
    calc i * stop / (num - 1) ≤ (num - 1) * stop / (num - 1) :=
          Nat.div_le_div_right (Nat.mul_le_mul_right stop (by omega))
      _ = stop := Nat.mul_div_cancel_left stop (by omega)

theorem linspaceInt_getD_succ_lt (stop num i : ℕ) (hstop : num - 1 ≤ stop)
    (hi : i + 1 < num) :
    (linspaceInt stop num).getD i 0 < (linspaceInt stop num).getD (i + 1) 0 := by
  have h2 : 2 ≤ num := by omega
  rw [linspaceInt_getD stop num i h2 (by omega), linspaceInt_getD stop num (i + 1) h2 hi]
  have key : (i * stop + (num - 1)) / (num - 1) ≤ (i + 1) * stop / (num - 1) := by
    apply Nat.div_le_div_right
    have hmul : (i + 1) * stop = i * stop + stop := by ring
    omega
  rw [Nat.add_div_right _ (by omega : 0 < num - 1)] at key
  omega

theorem selectedTimings_length (timings : List ℚ) (num : ℕ) :
    (selectedTimings timings num).length = num := by
  unfold selectedTimings
  rw [List.length_map, linspaceInt_length]

theorem selectedTimings_getD (timings : List ℚ) (num i : ℕ) (hi : i < num) :
    (selectedTimings timings num).getD i 0 =
      timings.getD ((linspaceInt (timings.length - 1) num).getD i 0) 0 := by
  unfold selectedTimings
  rw [List.getD_eq_getElem _ _ (by rw [List.length_map, linspaceInt_length]; exact hi)]
  rw [List.getElem_map]
  congr 1
  rw [List.getD_eq_getElem _ _ (by rw [linspaceInt_length]; exact hi)]

theorem selectedTimings_getD_zero (timings : List ℚ) (num : ℕ) (h : 0 < num) :
    (selectedTimings timings num).getD 0 0 = timings.getD 0 0 := by
  rw [selectedTimings_getD _ _ _ h, linspaceInt_getD_zero _ _ h]

theorem selectedTimings_mem (timings : List ℚ) (num i : ℕ)
    (hlen : num ≤ timings.length) (h0 : 0 < num) (hi : i < num) :
    (selectedTimings timings num).getD i 0 ∈ timings := by
  rw [selectedTimings_getD _ _ _ hi]
  have hidx : (linspaceInt (timings.length - 1) num).getD i 0 < timings.length := by
    have := linspaceInt_getD_le_stop (timings.length - 1) num i hi
    omega
  rw [List.getD_eq_getElem _ _ hidx]
  exact List.getElem_mem hidx

theorem selectedTimings_pairwise (R : ℚ → ℚ → Prop) (timings : List ℚ)
    (num i : ℕ) (hpw : List.Pairwise R timings) (hlen : num ≤ timings.length)
    (hi : i + 1 < num) :
    R ((selectedTimings timings num).getD i 0)
      ((selectedTimings timings num).getD (i + 1) 0) := by
  have hstop : num - 1 ≤ timings.length - 1 := by omega
  have hlt := linspaceInt_getD_succ_lt (timings.length - 1) num i hstop hi
  have hbound : (linspaceInt (timings.length - 1) num).getD (i + 1) 0 < timings.length := by
    have := linspaceInt_getD_le_stop (timings.length - 1) num (i + 1) hi
    omega
  have hbound' : (linspaceInt (timings.length - 1) num).getD i 0 < timings.length := by
    omega
  rw [selectedTimings_getD _ _ _ (by omega), selectedTimings_getD _ _ _ hi,
    List.getD_eq_getElem _ _ hbound', List.getD_eq_getElem _ _ hbound]
  have hpg := List.pairwise_iff_get.1 hpw ⟨_, hbound'⟩ ⟨_, hbound⟩ (by simpa using hlt)
  simpa using hpg

theorem sumDur_mainAlloc (timings : List ℚ) (num : ℕ) (d : ℚ) (h : 0 < num) :
    sumDur (mainAlloc timings num d) = d - (selectedTimings timings num).getD 0 0 := by
  have hcongr : ∀ i ∈ List.range num,
      ((fun a : ℕ × ℚ × ℚ => a.2.2) ∘ fun i : ℕ =>
        ((i, (selectedTimings timings num).getD i 0,
          (if i < num - 1 then (selectedTimings timings num).getD (i + 1) 0 else d) -
            (selectedTimings timings num).getD i 0) : ℕ × ℚ × ℚ)) i =
      (fun i : ℕ =>
        (if i + 1 < num then (selectedTimings timings num).getD (i + 1) 0 else d) -
        (if i < num then (selectedTimings timings num).getD i 0 else d)) i := by
    intro i hi
    rw [List.mem_range] at hi
    simp only [Function.comp_apply]
    by_cases h1 : i + 1 < num
    · rw [if_pos (by omega : i < num - 1), if_pos h1, if_pos hi]
    · rw [if_neg (by omega : ¬ i < num - 1), if_neg h1, if_pos hi]
  unfold sumDur mainAlloc
  rw [List.map_map, List.map_congr_left hcongr]
  have htel := sum_map_range_telescope
    (fun j : ℕ => if j < num then (selectedTimings timings num).getD j 0 else d) num
  simp only at htel ⊢
  rw [htel]
  rw [if_neg (by omega : ¬ num < num), if_pos h]

theorem firstStart_mainAlloc (timings : List ℚ) (num : ℕ) (d : ℚ) (h : 0 < num) :
    firstStart (mainAlloc timings num d) = (selectedTimings timings num).getD 0 0 := by
  unfold firstStart mainAlloc
  obtain ⟨m, rfl⟩ := Nat.exists_eq_succ_of_ne_zero (Nat.pos_iff_ne_zero.1 h)
  rw [List.range_succ_eq_map]
  simp

/-- The greedy filter keeps timestamps pairwise at least `min_interval`
apart, and every kept timestamp is at least `min_interval` after the
incoming `last_time`. -/
theorem greedyFilter_spec (m : ℚ) (hm : 0 ≤ m) (l : List ℚ) :
    ∀ last : ℚ,
      List.Chain' (fun a b => m ≤ b - a) (greedyFilter m last l) ∧
      ∀ a ∈ greedyFilter m last l, last + m ≤ a := by
  induction l with
  | nil =>
    intro last
    exact ⟨List.chain'_nil, by intro a ha; simp [greedyFilter] at ha⟩
  | cons t ts ih =>
    intro last
    by_cases h : t - last ≥ m
    · have hres : greedyFilter m last (t :: ts) = t :: greedyFilter m t ts := by
        simp only [greedyFilter]
        rw [if_pos h]
      obtain ⟨ihc, ihm⟩ := ih t
      refine ⟨?_, ?_⟩
      · rw [hres, List.chain'_cons']
        refine ⟨?_, ihc⟩
        intro b hb
        have hbmem : b ∈ greedyFilter m t ts := List.mem_of_mem_head? hb
        have := ihm b hbmem
        linarith
      · intro a ha
        rw [hres] at ha
        rcases List.mem_cons.1 ha with rfl | ha'
        · linarith
        · have := ihm a ha'
          linarith
    · have hres : greedyFilter m last (t :: ts) = greedyFilter m last ts := by
        simp only [greedyFilter]
        rw [if_neg h]
      obtain ⟨ihc, ihm⟩ := ih last
      rw [hres]
      exact ⟨ihc, ihm⟩

/-- Claim C4 (amended): the timeline built by `_calculate_scene_timings`
is never empty, strictly increasing, and starts at most at 0.1 seconds;
the greedily filtered timestamps are pairwise at least `min_interval`
apart.  The original claim additionally asserted the minimum gap for ALL
consecutive elements of the final timeline, which fails when `0.0` is
prepended less than `min_interval` before the first kept timestamp (see
the counterexample). -/
theorem c4_build_timeline (beats onsets : List ℚ) (duration min_interval : ℚ)
    (hm : 0 < min_interval) :
    calc_scene_timings beats onsets duration min_interval ≠ [] ∧
    List.Chain' (· < ·) (calc_scene_timings beats onsets duration min_interval) ∧
    (calc_scene_timings beats onsets duration min_interval).headD 1 ≤ 1/10 ∧
    List.Chain' (fun a b => min_interval ≤ b - a)
      (filtered_timings beats onsets min_interval) := by
  obtain ⟨hchain, hmem⟩ := greedyFilter_spec min_interval (le_of_lt hm)
    (all_timings beats onsets) (-min_interval)
  have hnonneg : ∀ a ∈ filtered_timings beats onsets min_interval, 0 ≤ a := by
    intro a ha
    have := hmem a ha
    linarith
  have hstrict : List.Chain' (· < ·) (filtered_timings beats onsets min_interval) :=
    hchain.imp (fun a b hab => by linarith)
  unfold calc_scene_timings
  split_ifs with hif
  · refine ⟨by simp, ?_, ?_⟩
    · rw [List.chain'_cons']
      refine ⟨?_, hstrict⟩
      intro b hb
      rcases hif with hemp | hgt
      · rw [hemp] at hb
        simp at hb
      · cases hl : filtered_timings beats onsets min_interval with
        | nil =>
          rw [hl] at hb
          simp at hb
        | cons a as =>
          rw [hl] at hb hgt
          simp only [List.head?_cons, Option.mem_def, Option.some.injEq] at hb
          subst hb
          simp only [List.headD_cons] at hgt
          linarith
    · refine ⟨by norm_num, hchain⟩
  · push_neg at hif
    obtain ⟨hne, hle⟩ := hif
    refine ⟨hne, hstrict, ?_, hchain⟩
    cases hl : filtered_timings beats onsets min_interval with
    | nil => exact absurd hl hne
    | cons a as =>
      rw [hl] at hle
      simp only [List.headD_cons] at hle ⊢
      exact hle

/-- Claim C4 witness on beats `[0.2]` with `min_interval = 0.5`. -/
theorem c4_build_timeline_witness :
    calc_scene_timings [1/5] [] 10 (1/2) ≠ [] ∧
    List.Chain' (· < ·) (calc_scene_timings [1/5] [] 10 (1/2)) ∧
    (calc_scene_timings [1/5] [] 10 (1/2)).headD 1 ≤ 1/10 ∧
    List.Chain' (fun a b => (1/2 : ℚ) ≤ b - a) (filtered_timings [1/5] [] (1/2)) :=
  c4_build_timeline [1/5] [] 10 (1/2) (by norm_num)

/-- Claim C4 counterexample to the minimum-gap clause: beats `[0.2]` with
`min_interval = 0.5` give the timeline `[0, 0.2]`, whose one consecutive
gap is `0.2 < 0.5` — the prepended `0.0` is closer than `min_interval` to
its successor. -/
theorem c4_counterexample :
    calc_scene_timings [1/5] [] 10 (1/2) = [0, 1/5] ∧
    ¬ List.Chain' (fun a b => (1/2 : ℚ) ≤ b - a)
        (calc_scene_timings [1/5] [] 10 (1/2)) ∧
    (0 : ℚ) < 1/2 := by
  have heval : calc_scene_timings [1/5] [] 10 (1/2) = [0, 1/5] := by
    norm_num [calc_scene_timings, filtered_timings, all_timings, greedyFilter,
      List.insertionSort, List.orderedInsert, List.dedup]
  refine ⟨heval, ?_, by norm_num⟩
  rw [heval]
  intro hcon
  rw [List.chain'_cons'] at hcon
  have := hcon.1 (1/5) (by simp)
  norm_num at this

/-- Claim C3 (amended): for every strategy, the durations returned by
`distribute_scenes_to_timings` sum to `total_duration` minus the start of
the first allocation.  On the `evenly` path and the too-few-timings
fallback the first start is 0, so the sum is exactly `total_duration`;
on the timing-based path the first start is the first source timestamp,
so the sum equals `total_duration` within 1e-3 only when that timestamp
is within 1e-3 of zero.  The original claim, asserting the round-trip for
every sorted source list, fails (see the counterexample). -/
theorem c3_sum_durations (num : ℕ) (scene_timings beats onsets : List ℚ)
    (d : ℚ) (strategy : String) (hnum : 0 < num) :
    sumDur (distribute_scenes_to_timings num scene_timings beats onsets d strategy) =
      d - firstStart (distribute_scenes_to_timings num scene_timings beats onsets d strategy) ∧
    ((strategy = "evenly" ∨
        (chooseTimings strategy scene_timings beats onsets).length < num) →
      firstStart (distribute_scenes_to_timings num scene_timings beats onsets d strategy)
        = 0) ∧
    (strategy ≠ "evenly" →
      num ≤ (chooseTimings strategy scene_timings beats onsets).length →
      firstStart (distribute_scenes_to_timings num scene_timings beats onsets d strategy)
        = (chooseTimings strategy scene_timings beats onsets).getD 0 0) := by
  unfold distribute_scenes_to_timings
  split_ifs with h1 h2
  · rw [sumDur_evenlyAlloc num d hnum, firstStart_evenlyAlloc num d hnum]
    exact ⟨by ring, fun _ => rfl, fun hne _ => absurd h1 hne⟩
  · rw [sumDur_evenlyAlloc num d hnum, firstStart_evenlyAlloc num d hnum]
    exact ⟨by ring, fun _ => rfl, fun _ hge => absurd h2 (not_lt.2 hge)⟩
  · rw [sumDur_mainAlloc _ num d hnum, firstStart_mainAlloc _ num d hnum,
      selectedTimings_getD_zero _ num hnum]
    refine ⟨rfl, ?_, fun _ _ => rfl⟩
    intro hor
    rcases hor with he | hlen
    · exact absurd he h1
    · exact absurd hlen h2

/-- Claim C3 witness: strategy `beats` with source `[0, 5]` (first
timestamp 0), two scenes, duration 10. -/
theorem c3_sum_durations_witness :
    sumDur (distribute_scenes_to_timings 2 [] [0, 5] [] 10 "beats") =
      10 - firstStart (distribute_scenes_to_timings 2 [] [0, 5] [] 10 "beats") ∧
    (("beats" = "evenly" ∨
        (chooseTimings "beats" [] [0, 5] []).length < 2) →
      firstStart (distribute_scenes_to_timings 2 [] [0, 5] [] 10 "beats") = 0) ∧
    ("beats" ≠ "evenly" →
      2 ≤ (chooseTimings "beats" [] [0, 5] []).length →
      firstStart (distribute_scenes_to_timings 2 [] [0, 5] [] 10 "beats")
        = (chooseTimings "beats" [] [0, 5] []).getD 0 0) :=
  c3_sum_durations 2 [] [0, 5] [] 10 "beats" (by norm_num)

/-- Claim C3 counterexample to the original round-trip: strategy `beats`
with the sorted source `[1, 2]`, two scenes and duration 10 allocates
`[(0, 1, 1), (1, 2, 8)]`: the durations sum to 9, off from the input
duration 10 by 1 > 1e-3. -/
theorem c3_counterexample :
    distribute_scenes_to_timings 2 [] [1, 2] [] 10 "beats" =
      [(0, 1, 1), (1, 2, 8)] ∧
    sumDur (distribute_scenes_to_timings 2 [] [1, 2] [] 10 "beats") = 9 ∧
    ¬(|sumDur (distribute_scenes_to_timings 2 [] [1, 2] [] 10 "beats") - 10|
        ≤ 1/1000) := by
  have heval : distribute_scenes_to_timings 2 [] [1, 2] [] 10 "beats" =
      [(0, 1, 1), (1, 2, 8)] := by
    have h1 : distribute_scenes_to_timings 2 [] [1, 2] [] 10 "beats" =
        [(0, 1, 2 - 1), (1, 2, 10 - 2)] := rfl
    rw [h1]
    norm_num
  have hsum : sumDur (distribute_scenes_to_timings 2 [] [1, 2] [] 10 "beats") = 9 := by
    rw [heval]
    norm_num [sumDur]
  refine ⟨heval, hsum, ?_⟩
  rw [hsum]
  norm_num

/-- Claim C6 (amended): every allocation has strictly positive duration
PROVIDED the chosen source timestamps are strictly increasing and all lie
strictly before `total_duration` (and the duration is positive).  The
distributor enforces no minimum floor duration: with duplicate selected
timestamps, or a timestamp at/past `total_duration`, it returns
non-positive durations unchanged (see the counterexample). -/
theorem c6_positive_durations (num : ℕ) (scene_timings beats onsets : List ℚ)
    (d : ℚ) (strategy : String) (hnum : 0 < num) (hd : 0 < d)
    (hchain : List.Chain' (· < ·) (chooseTimings strategy scene_timings beats onsets))
    (hlt : ∀ t ∈ chooseTimings strategy scene_timings beats onsets, t < d) :
    ∀ a ∈ distribute_scenes_to_timings num scene_timings beats onsets d strategy,
      0 < a.2.2 := by
  have hdiv : (0 : ℚ) < d / num := div_pos hd (by exact_mod_cast hnum)
  unfold distribute_scenes_to_timings
  split_ifs with h1 h2
  · intro a ha
    obtain ⟨i, hi, rfl⟩ := List.mem_map.1 ha
    exact hdiv
  · intro a ha
    obtain ⟨i, hi, rfl⟩ := List.mem_map.1 ha
    exact hdiv
  · intro a ha
    obtain ⟨i, hi, rfl⟩ := List.mem_map.1 ha
    rw [List.mem_range] at hi
    have hpw : List.Pairwise (· < ·)
        (chooseTimings strategy scene_timings beats onsets) :=
      List.chain'_iff_pairwise.1 hchain
    have hlen : num ≤ (chooseTimings strategy scene_timings beats onsets).length :=
      le_of_not_lt h2
    show 0 < (if i < num - 1
        then (selectedTimings (chooseTimings strategy scene_timings beats onsets)
          num).getD (i + 1) 0
        else d) -
      (selectedTimings (chooseTimings strategy scene_timings beats onsets) num).getD i 0
    by_cases hlast : i < num - 1
    · rw [if_pos hlast]
      have := selectedTimings_pairwise (· < ·) _ num i hpw hlen (by omega)
      linarith
    · rw [if_neg hlast]
      have hmemsel := selectedTimings_mem _ num i hlen hnum hi
      have := hlt _ hmemsel
      linarith

/-- Claim C6 witness: beats `[0, 5]`, two scenes, duration 10; the first
allocation `(0, 0, 5)` has positive duration. -/
theorem c6_positive_durations_witness :
    0 < (((0 : ℕ), (0 : ℚ), (5 : ℚ)) : ℕ × ℚ × ℚ).2.2 := by
  apply c6_positive_durations 2 [] [0, 5] [] 10 "beats" (by norm_num) (by norm_num)
    (by norm_num [chooseTimings, List.chain'_pair])
    (by norm_num [chooseTimings])
  have heval : distribute_scenes_to_timings 2 [] [0, 5] [] 10 "beats" =
      [(0, 0, 5), (1, 5, 5)] := by
    have h1 : distribute_scenes_to_timings 2 [] [0, 5] [] 10 "beats" =
        [(0, 0, 5 - 0), (1, 5, 10 - 5)] := rfl
    rw [h1]
    norm_num
  rw [heval]
  simp

/-- Claim C6 counterexample: the sorted source `[0, 0]` (a duplicate
timestamp) with two scenes and duration 5 produces the allocation
`(0, 0, 0)` whose duration is 0, not positive: no floor duration is
enforced. -/
theorem c6_counterexample :
    distribute_scenes_to_timings 2 [] [0, 0] [] 5 "beats" =
      [(0, 0, 0), (1, 0, 5)] ∧
    ¬(0 < (((0 : ℕ), (0 : ℚ), (0 : ℚ)) : ℕ × ℚ × ℚ).2.2) ∧
    ((0 : ℕ), (0 : ℚ), (0 : ℚ)) ∈
      distribute_scenes_to_timings 2 [] [0, 0] [] 5 "beats" := by
  have heval : distribute_scenes_to_timings 2 [] [0, 0] [] 5 "beats" =
      [(0, 0, 0), (1, 0, 5)] := by
    have h1 : distribute_scenes_to_timings 2 [] [0, 0] [] 5 "beats" =
        [(0, 0, 0 - 0), (1, 0, 5 - 0)] := rfl
    rw [h1]
    norm_num
  refine ⟨heval, by norm_num, ?_⟩
  rw [heval]
  simp

theorem linspaceInt_getD_mono (stop num i j : ℕ) (hij : i ≤ j) (hj : j < num) :
    (linspaceInt stop num).getD i 0 ≤ (linspaceInt stop num).getD j 0 := by
  by_cases h1 : num = 1
  · subst h1
    have hj0 : j = 0 := by omega
    have hi0 : i = 0 := by omega
    subst hj0
    subst hi0
    exact le_rfl
  · rw [linspaceInt_getD stop num i (by omega) (by omega),
      linspaceInt_getD stop num j (by omega) hj]
    exact Nat.div_le_div_right (Nat.mul_le_mul_right stop hij)

theorem linspaceInt_chain_le (stop num : ℕ) :
    List.Chain' (· ≤ ·) (linspaceInt stop num) := by
  rw [List.chain'_iff_get]
  intro i hi
  rw [linspaceInt_length] at hi
  have hg : ∀ (k : ℕ) (hk : k < (linspaceInt stop num).length),
      (linspaceInt stop num).get ⟨k, hk⟩ = (linspaceInt stop num).getD k 0 := by
    intro k hk
    rw [List.getD_eq_getElem _ _ hk]
    simp
  rw [hg, hg]
  exact linspaceInt_getD_mono stop num i (i + 1) (by omega) (by omega)

/-- Claim C7 (amended): the index selection of the timing path truncates
(floors) the linear interpolation over the inclusive index range — not
rounds to nearest — and is monotone, within bounds, and hits both
endpoints (the last one for at least two scenes).  The worked example of
the claim is exact: timeline `[0, 1, 2.5, 4, 6]` with 3 scenes selects
indices `[0, 2, 4]`, giving starts `[0, 2.5, 6]` and durations
`[2.5, 3.5, duration - 6]`. -/
theorem c7_index_selection (d : ℚ) (stop num : ℕ) (hnum : 1 ≤ num) :
    distribute_scenes_to_timings 3 [0, 1, 5/2, 4, 6] [] [] d "auto" =
      [(0, 0, 5/2), (1, 5/2, 7/2), (2, 6, d - 6)] ∧
    List.Chain' (· ≤ ·) (linspaceInt stop num) ∧
    (∀ j ∈ linspaceInt stop num, j ≤ stop) ∧
    (linspaceInt stop num).getD 0 0 = 0 ∧
    (2 ≤ num → (linspaceInt stop num).getD (num - 1) 0 = stop) := by
  refine ⟨?_, linspaceInt_chain_le stop num, ?_, linspaceInt_getD_zero stop num hnum, ?_⟩
  · have h1 : distribute_scenes_to_timings 3 [0, 1, 5/2, 4, 6] [] [] d "auto" =
        [(0, 0, 5/2 - 0), (1, 5/2, 6 - 5/2), (2, 6, d - 6)] := rfl
    rw [h1]
    norm_num
  · intro j hj
    obtain ⟨i, hi, rfl⟩ := List.mem_iff_getElem.1 hj
    rw [linspaceInt_length] at hi
    have := linspaceInt_getD_le_stop stop num i hi
    rwa [List.getD_eq_getElem _ _ (by rw [linspaceInt_length]; exact hi)] at this
  · intro h2
    rw [linspaceInt_getD stop num (num - 1) h2 (by omega)]
    exact Nat.mul_div_cancel_left stop (by omega)

/-- Claim C7 witness at `duration = 10`, `stop = 4`, `num = 3`. -/
theorem c7_index_selection_witness :
    distribute_scenes_to_timings 3 [0, 1, 5/2, 4, 6] [] [] 10 "auto" =
      [(0, 0, 5/2), (1, 5/2, 7/2), (2, 6, 10 - 6)] ∧
    List.Chain' (· ≤ ·) (linspaceInt 4 3) ∧
    (∀ j ∈ linspaceInt 4 3, j ≤ 4) ∧
    (linspaceInt 4 3).getD 0 0 = 0 ∧
    (2 ≤ 3 → (linspaceInt 4 3).getD (3 - 1) 0 = 4) :=
  c7_index_selection 10 4 3 (by norm_num)

/-- Claim C7 counterexample to round-to-nearest: on a 4-element timeline
with 3 scenes, the implementation truncates `linspace(0, 3, 3) =
[0, 1.5, 3]` to indices `[0, 1, 3]`, while rounding to the nearest index,
as the claim words it, would give `[0, 2, 3]`; the middle scene therefore
starts at timestamp index 1, not 2. -/
theorem c7_counterexample :
    linspaceInt 3 3 = [0, 1, 3] ∧
    specSelectIndices 3 3 = [0, 2, 3] ∧
    linspaceInt 3 3 ≠ specSelectIndices 3 3 ∧
    distribute_scenes_to_timings 3 [0, 1, 2, 3] [] [] 10 "auto" =
      [(0, 0, 1), (1, 1, 2), (2, 3, 7)] := by
  have h1 : linspaceInt 3 3 = [0, 1, 3] := by decide
  have h2 : specSelectIndices 3 3 = [0, 2, 3] := by
    have h0 : specSelectIndices 3 3 =
        [min 3 (⌊(0 : ℚ) * 3 / ((3 : ℚ) - 1) + 1/2⌋.toNat),
         min 3 (⌊(1 : ℚ) * 3 / ((3 : ℚ) - 1) + 1/2⌋.toNat),
         min 3 (⌊(2 : ℚ) * 3 / ((3 : ℚ) - 1) + 1/2⌋.toNat)] := by
      simp [specSelectIndices, List.range_succ]
    rw [h0]
    norm_num
    decide
  refine ⟨h1, h2, ?_, ?_⟩
  · rw [h1, h2]
    decide
  · have h3 : distribute_scenes_to_timings 3 [0, 1, 2, 3] [] [] 10 "auto" =
        [(0, 0, 1 - 0), (1, 1, 3 - 1), (2, 3, 10 - 3)] := rfl
    rw [h3]
    norm_num

/-- Claim C8: for any non-`evenly` strategy whose chosen source has fewer
timestamps than scenes, `distribute_scenes_to_timings` returns exactly
what the `evenly` strategy returns (the source prints a diagnostic on this
path), and the returned durations sum to `total_duration` exactly. -/
theorem c8_fallback (num : ℕ) (scene_timings beats onsets : List ℚ) (d : ℚ)
    (strategy : String) (hnum : 0 < num) (hne : strategy ≠ "evenly")
    (hshort : (chooseTimings strategy scene_timings beats onsets).length < num) :
    distribute_scenes_to_timings num scene_timings beats onsets d strategy =
      distribute_scenes_to_timings num scene_timings beats onsets d "evenly" ∧
    sumDur (distribute_scenes_to_timings num scene_timings beats onsets d strategy)
      = d := by
  have hres : distribute_scenes_to_timings num scene_timings beats onsets d strategy =
      evenlyAlloc num d := by
    unfold distribute_scenes_to_timings
    rw [if_neg hne, if_pos hshort]
  have hres2 : distribute_scenes_to_timings num scene_timings beats onsets d "evenly" =
      evenlyAlloc num d := by
    unfold distribute_scenes_to_timings
    rw [if_pos rfl]
  rw [hres, hres2]
  exact ⟨rfl, sumDur_evenlyAlloc num d hnum⟩

/-- Claim C8 witness: strategy `auto` with an empty timeline and two
scenes falls back to the even split of duration 10. -/
theorem c8_fallback_witness :
    distribute_scenes_to_timings 2 [] [] [] 10 "auto" =
      distribute_scenes_to_timings 2 [] [] [] 10 "evenly" ∧
    sumDur (distribute_scenes_to_timings 2 [] [] [] 10 "auto") = 10 :=
  c8_fallback 2 [] [] [] 10 "auto" (by norm_num) (by decide) (by decide)

theorem evenlyAlloc_length (num : ℕ) (d : ℚ) :
    (evenlyAlloc num d).length = num := by
  unfold evenlyAlloc
  rw [List.length_map, List.length_range]

theorem evenlyAlloc_map_fst (num : ℕ) (d : ℚ) :
    (evenlyAlloc num d).map (fun a => a.1) = List.range num := by
  unfold evenlyAlloc
  rw [List.map_map]
  exact List.map_id _

theorem evenlyAlloc_starts_chain (num : ℕ) (d : ℚ) (hd : 0 ≤ d / num) :
    List.Chain' (· ≤ ·) ((evenlyAlloc num d).map (fun a => a.2.1)) := by
  unfold evenlyAlloc
  rw [List.map_map]
  rw [List.chain'_iff_get]
  intro i hi
  simp only [List.length_map, List.length_range] at hi
  have hg : ∀ (k : ℕ) (hk : k < (List.map ((fun a : ℕ × ℚ × ℚ => a.2.1) ∘ fun i : ℕ =>
      ((i, (i : ℚ) * (d / num), d / num) : ℕ × ℚ × ℚ)) (List.range num)).length),
      (List.map ((fun a : ℕ × ℚ × ℚ => a.2.1) ∘ fun i : ℕ =>
        ((i, (i : ℚ) * (d / num), d / num) : ℕ × ℚ × ℚ)) (List.range num)).get ⟨k, hk⟩
        = (k : ℚ) * (d / num) := by
    intro k hk
    simp
  rw [hg, hg]
  have hcast : ((i : ℚ)) ≤ ((i + 1 : ℕ) : ℚ) := by exact_mod_cast Nat.le_succ i
  exact mul_le_mul_of_nonneg_right hcast hd

theorem mainAlloc_length (timings : List ℚ) (num : ℕ) (d : ℚ) :
    (mainAlloc timings num d).length = num := by
  unfold mainAlloc
  rw [List.length_map, List.length_range]

theorem mainAlloc_map_fst (timings : List ℚ) (num : ℕ) (d : ℚ) :
    (mainAlloc timings num d).map (fun a => a.1) = List.range num := by
  unfold mainAlloc
  rw [List.map_map]
  exact List.map_id _

theorem mainAlloc_starts_chain (timings : List ℚ) (num : ℕ) (d : ℚ)
    (hpw : List.Pairwise (· ≤ ·) timings) (hlen : num ≤ timings.length) :
    List.Chain' (· ≤ ·) ((mainAlloc timings num d).map (fun a => a.2.1)) := by
  unfold mainAlloc
  rw [List.map_map]
  rw [List.chain'_iff_get]
  intro i hi
  simp only [List.length_map, List.length_range] at hi
  have hg : ∀ (k : ℕ) (hk : k < (List.map ((fun a : ℕ × ℚ × ℚ => a.2.1) ∘ fun i : ℕ =>
      ((i, (selectedTimings timings num).getD i 0,
        (if i < num - 1 then (selectedTimings timings num).getD (i + 1) 0 else d) -
          (selectedTimings timings num).getD i 0) : ℕ × ℚ × ℚ)) (List.range num)).length),
      (List.map ((fun a : ℕ × ℚ × ℚ => a.2.1) ∘ fun i : ℕ =>
        ((i, (selectedTimings timings num).getD i 0,
          (if i < num - 1 then (selectedTimings timings num).getD (i + 1) 0 else d) -
            (selectedTimings timings num).getD i 0) : ℕ × ℚ × ℚ)) (List.range num)).get
        ⟨k, hk⟩ = (selectedTimings timings num).getD k 0 := by
    intro k hk
    simp
  rw [hg, hg]
  exact selectedTimings_pairwise (· ≤ ·) timings num i hpw hlen (by omega)

/-- Claim C10: for every strategy, positive duration and sorted chosen
source, the distributor returns exactly `num_scenes` records, whose scene
indices are `0, 1, ..., num_scenes - 1` in order and whose start times are
non-decreasing. -/
theorem c10_allocation_shape (num : ℕ) (scene_timings beats onsets : List ℚ)
    (d : ℚ) (strategy : String) (hnum : 0 < num) (hd : 0 < d)
    (hsorted : List.Chain' (· ≤ ·)
      (chooseTimings strategy scene_timings beats onsets)) :
    (distribute_scenes_to_timings num scene_timings beats onsets d strategy).length
      = num ∧
    (distribute_scenes_to_timings num scene_timings beats onsets d strategy).map
      (fun a => a.1) = List.range num ∧
    List.Chain' (· ≤ ·)
      ((distribute_scenes_to_timings num scene_timings beats onsets d strategy).map
        (fun a => a.2.1)) := by
  have hdiv : (0 : ℚ) ≤ d / num := le_of_lt (div_pos hd (by exact_mod_cast hnum))
  unfold distribute_scenes_to_timings
  split_ifs with h1 h2
  · exact ⟨evenlyAlloc_length num d, evenlyAlloc_map_fst num d,
      evenlyAlloc_starts_chain num d hdiv⟩
  · exact ⟨evenlyAlloc_length num d, evenlyAlloc_map_fst num d,
      evenlyAlloc_starts_chain num d hdiv⟩
  · exact ⟨mainAlloc_length _ num d, mainAlloc_map_fst _ num d,
      mainAlloc_starts_chain _ num d (List.chain'_iff_pairwise.1 hsorted)
        (le_of_not_lt h2)⟩

/-- Claim C10 witness: strategy `beats` with source `[0, 5]`, two scenes,
duration 10. -/
theorem c10_allocation_shape_witness :
    (distribute_scenes_to_timings 2 [] [0, 5] [] 10 "beats").length = 2 ∧
    (distribute_scenes_to_timings 2 [] [0, 5] [] 10 "beats").map
      (fun a => a.1) = List.range 2 ∧
    List.Chain' (· ≤ ·)
      ((distribute_scenes_to_timings 2 [] [0, 5] [] 10 "beats").map
        (fun a => a.2.1)) :=
  c10_allocation_shape 2 [] [0, 5] [] 10 "beats" (by norm_num) (by norm_num)
    (by norm_num [chooseTimings, List.chain'_pair])
